import Mathlib

/-!
# A shallow embedding of the `prettysize` formatting engine (`src/fmt.rs`)

The definitions below translate the size-to-text formatting engine of the
repository: the unit catalog (`Unit`, `Unit.text`, `Unit.format`), the two
17-entry rule tables (`BASE10_RULES`, `BASE2_RULES`), the rule lookup
performed by `SizeFormatter`'s `Display` implementation, and the builder
surface (`with_base`, `with_style`, `Size.format`).

Machine integers are modelled as `Nat`/`Int` (all byte counts handled by the
code fit in 64 bits, which the theorems track through explicit hypotheses).
The `f64` arithmetic inside the numeric renderers is modelled by exact
rational arithmetic; every theorem that evaluates a rendered number does so
at an input where the IEEE-754 double computation is exact (the numerator is
below `2^53` and the divisor is a power of two), so the rational model and
the double model agree there.
-/

namespace Pretty

/-- Modelled from the spec: the unit-step constants live in the crate root
(`lib.rs`), which is not among the provided sources.  The spec (§2, glossary)
and the doc comments of `src/fmt.rs` fix them: base-10 units step by 1000
starting at `KILOBYTE = 1000`, base-2 units step by 1024 starting at
`KIBIBYTE = 1024`. -/
def KILOBYTE : Nat := 1000

def MEGABYTE : Nat := 1000 * KILOBYTE

def GIGABYTE : Nat := 1000 * MEGABYTE

def TERABYTE : Nat := 1000 * GIGABYTE

def PETABYTE : Nat := 1000 * TERABYTE

def EXABYTE : Nat := 1000 * PETABYTE

def KIBIBYTE : Nat := 1024

def MEBIBYTE : Nat := 1024 * KIBIBYTE

def GIBIBYTE : Nat := 1024 * MEBIBYTE

def TEBIBYTE : Nat := 1024 * GIBIBYTE

def PEBIBYTE : Nat := 1024 * TEBIBYTE

def EXBIBYTE : Nat := 1024 * PEBIBYTE

/-- `u64::max_value()`, the final catch-all threshold of both rule tables. -/
def u64Max : Nat := 2 ^ 64 - 1

/-- `i64::max_value() as u64`, the magnitude substituted for `i64::MIN`. -/
def i64Max : Nat := 2 ^ 63 - 1

/-- `enum Base` from `src/fmt.rs` (lines 14–21). -/
inductive Base where
  | Base2
  | Base10
deriving DecidableEq

/-- `enum Unit` from `src/fmt.rs` (lines 24–51), in source order. -/
inductive Unit where
  | Byte
  | Kibibyte
  | Kilobyte
  | Mebibyte
  | Megabyte
  | Gibibyte
  | Gigabyte
  | Tebibyte
  | Terabyte
  | Pebibyte
  | Petabyte
  | Exbibyte
  | Exabyte
deriving DecidableEq

/-- `Unit::text` from `src/fmt.rs` (lines 54–74): the four spellings
(full lowercase, full capitalized, abbreviation lowercase, abbreviation). -/
def Unit.text : Unit → String × String × String × String
  | Unit.Byte => ("byte", "Byte", "b", "B")
  | Unit.Kilobyte => ("kilobyte", "Kilobyte", "kb", "KB")
  | Unit.Megabyte => ("megabyte", "Megabyte", "mb", "MB")
  | Unit.Gigabyte => ("gigabyte", "Gigabyte", "gb", "GB")
  | Unit.Terabyte => ("terabyte", "Terabyte", "tb", "TB")
  | Unit.Petabyte => ("petabyte", "Petabyte", "pb", "PB")
  | Unit.Exabyte => ("exabyte", "Exabyte", "eb", "EB")
  | Unit.Kibibyte => ("kibibyte", "Kibibyte", "kib", "KiB")
  | Unit.Mebibyte => ("mebibyte", "Mebibyte", "mib", "MiB")
  | Unit.Gibibyte => ("gibibyte", "Gibibyte", "gib", "GiB")
  | Unit.Pebibyte => ("pebibyte", "Pebibyte", "pib", "PiB")
  | Unit.Tebibyte => ("tebibyte", "Tebibyte", "tib", "TiB")
  | Unit.Exbibyte => ("exbibyte", "Exbibyte", "eib", "EiB")

/-- The magnitude tier of a unit, in the sense of the spec's glossary
("Tier"): byte = 0, kilo/kibi = 1, …, exa/exbi = 6. -/
def Unit.tier : Unit → Nat
  | Unit.Byte => 0
  | Unit.Kibibyte => 1
  | Unit.Kilobyte => 1
  | Unit.Mebibyte => 2
  | Unit.Megabyte => 2
  | Unit.Gibibyte => 3
  | Unit.Gigabyte => 3
  | Unit.Tebibyte => 4
  | Unit.Terabyte => 4
  | Unit.Pebibyte => 5
  | Unit.Petabyte => 5
  | Unit.Exbibyte => 6
  | Unit.Exabyte => 6

/-- `enum Style` from `src/fmt.rs` (lines 100–112). -/
inductive Style where
  | Default
  | Abbreviated
  | AbbreviatedLowercase
  | Full
  | FullLowercase
deriving DecidableEq

/-- `Unit::format` from `src/fmt.rs` (lines 76–93).  The source resolves
`Style::Default` by a depth-one recursive call on itself with
`FullLowercase` (when the unit is `Byte`) or `Abbreviated`; that single
recursion step is unfolded here so the definition is structurally total,
which changes nothing observable.  The tuple projections `.1`/`.2.1`/
`.2.2.1`/`.2.2.2` are the source's `.0`/`.1`/`.2`/`.3`. -/
def Unit.format (u : Unit) (bytes : Nat) (style : Style) : String :=
  match style, bytes with
  | Style.Default, 1 =>
    (match u with
     | Unit.Byte => " " ++ (Unit.text u).1
     | _ => " " ++ (Unit.text u).2.2.2)
  | Style.Default, _ =>
    (match u with
     | Unit.Byte => " " ++ (Unit.text u).1 ++ "s"
     | _ => " " ++ (Unit.text u).2.2.2)
  | Style.FullLowercase, 1 => " " ++ (Unit.text u).1
  | Style.Full, 1 => " " ++ (Unit.text u).2.1
  | Style.AbbreviatedLowercase, 1 => " " ++ (Unit.text u).2.2.1
  | Style.Abbreviated, 1 => " " ++ (Unit.text u).2.2.2
  | Style.FullLowercase, _ => " " ++ (Unit.text u).1 ++ "s"
  | Style.Full, _ => " " ++ (Unit.text u).2.1 ++ "s"
  | Style.AbbreviatedLowercase, _ => " " ++ (Unit.text u).2.2.1
  | Style.Abbreviated, _ => " " ++ (Unit.text u).2.2.2

/-- Round `n / d` to the nearest integer, ties to even: the rounding Rust
applies to the exact value of an `f64` when formatting it with a fixed
number of decimals (exact rational arithmetic, carried out on integers). -/
def rhe (n d : Nat) : Nat :=
  let q := n / d
  let r := n % d
  if 2 * r < d then q
  else if d < 2 * r then q + 1
  else if q % 2 = 0 then q else q + 1

/-- Print `n` as a decimal with `prec` digits after the point (`n` is the
value scaled by `10 ^ prec`); with `prec = 0` just the integer. -/
def decimalString (n : Nat) (prec : Nat) : String :=
  if prec = 0 then toString n
  else
    let intPart := n / 10 ^ prec
    let fracPart := n % 10 ^ prec
    let fracStr := toString fracPart
    let pad := String.mk (List.replicate (prec - fracStr.length) '0')
    toString intPart ++ "." ++ pad ++ fracStr

/-- Models the numeric-renderer closures
`|fmt, bytes| write!(fmt, "{:.P}", bytes as f64 / (step as f64))` of the rule
tables: the quotient is taken as an exact rational — scaled by `10 ^ prec`
and rounded with ties to even.  This agrees with the IEEE-754 double
computation whenever `bytes < 2^53` and `step` is a power of two — which
holds at every input the theorems below evaluate. -/
def fmtF (bytes step prec : Nat) : String :=
  decimalString (rhe (bytes * 10 ^ prec) step) prec

/-- Models the final rules' closures
`|fmt, bytes| write!(fmt, "{:0}", bytes as f64 / (step as f64))`: `{:0}` has
no precision, so Rust prints the double's shortest round-tripping decimal.
Modelled as the exact decimal expansion of the exact quotient (found by the
least `p` with `step ∣ bytes * 10 ^ p`), which agrees with Rust whenever the
quotient is exactly representable as a double and its exact decimal
expansion is the shortest round-tripping one — as at every input evaluated
below. -/
def displayF (bytes step : Nat) : String :=
  match (List.range 65).find? (fun p => bytes * 10 ^ p % step == 0) with
  | some 0 => toString (bytes / step)
  | some p => decimalString (bytes * 10 ^ p / step) p
  | none => toString (bytes / step)

/-- `struct FormatRule` from `src/fmt.rs` (lines 241–245). -/
structure FormatRule where
  less_than : Nat
  formatter : Nat → String
  unit : Unit

/-- `BASE10_RULES` from `src/fmt.rs` (lines 247–333).  The first rule's
`write!(fmt, "{:.0}", bytes)` formats the integer itself (Rust ignores
precision on integers). -/
def BASE10_RULES : List FormatRule := [
  ⟨1 * KILOBYTE, fun bytes => toString bytes, Unit.Byte⟩,
  ⟨10 * KILOBYTE, fun bytes => fmtF bytes (1 * KILOBYTE) 2, Unit.Kilobyte⟩,
  ⟨100 * KILOBYTE, fun bytes => fmtF bytes (1 * KILOBYTE) 1, Unit.Kilobyte⟩,
  ⟨1 * MEGABYTE, fun bytes => fmtF bytes (1 * KILOBYTE) 0, Unit.Kilobyte⟩,
  ⟨10 * MEGABYTE, fun bytes => fmtF bytes (1 * MEGABYTE) 2, Unit.Megabyte⟩,
  ⟨100 * MEGABYTE, fun bytes => fmtF bytes (1 * MEGABYTE) 1, Unit.Megabyte⟩,
  ⟨1 * GIGABYTE, fun bytes => fmtF bytes (1 * MEGABYTE) 0, Unit.Megabyte⟩,
  ⟨10 * GIGABYTE, fun bytes => fmtF bytes (1 * GIGABYTE) 2, Unit.Gigabyte⟩,
  ⟨100 * GIGABYTE, fun bytes => fmtF bytes (1 * GIGABYTE) 1, Unit.Gigabyte⟩,
  ⟨1 * TERABYTE, fun bytes => fmtF bytes (1 * GIGABYTE) 0, Unit.Gigabyte⟩,
  ⟨10 * TERABYTE, fun bytes => fmtF bytes (1 * TERABYTE) 2, Unit.Terabyte⟩,
  ⟨100 * TERABYTE, fun bytes => fmtF bytes (1 * TERABYTE) 1, Unit.Terabyte⟩,
  ⟨1 * PETABYTE, fun bytes => fmtF bytes (1 * TERABYTE) 0, Unit.Terabyte⟩,
  ⟨10 * PETABYTE, fun bytes => fmtF bytes (1 * PETABYTE) 2, Unit.Petabyte⟩,
  ⟨100 * PETABYTE, fun bytes => fmtF bytes (1 * PETABYTE) 1, Unit.Petabyte⟩,
  ⟨1 * EXABYTE, fun bytes => fmtF bytes (1 * PETABYTE) 0, Unit.Petabyte⟩,
  ⟨u64Max, fun bytes => displayF bytes (1 * EXABYTE), Unit.Exabyte⟩]

/-- `BASE2_RULES` from `src/fmt.rs` (lines 335–421). -/
def BASE2_RULES : List FormatRule := [
  ⟨1 * KIBIBYTE, fun bytes => toString bytes, Unit.Byte⟩,
  ⟨10 * KIBIBYTE, fun bytes => fmtF bytes (1 * KIBIBYTE) 2, Unit.Kibibyte⟩,
  ⟨100 * KIBIBYTE, fun bytes => fmtF bytes (1 * KIBIBYTE) 1, Unit.Kibibyte⟩,
  ⟨1 * MEBIBYTE, fun bytes => fmtF bytes (1 * KIBIBYTE) 0, Unit.Kibibyte⟩,
  ⟨10 * MEBIBYTE, fun bytes => fmtF bytes (1 * MEBIBYTE) 2, Unit.Mebibyte⟩,
  ⟨100 * MEBIBYTE, fun bytes => fmtF bytes (1 * MEBIBYTE) 1, Unit.Mebibyte⟩,
  ⟨1 * GIBIBYTE, fun bytes => fmtF bytes (1 * MEBIBYTE) 0, Unit.Mebibyte⟩,
  ⟨10 * GIBIBYTE, fun bytes => fmtF bytes (1 * GIBIBYTE) 2, Unit.Gibibyte⟩,
  ⟨100 * GIBIBYTE, fun bytes => fmtF bytes (1 * GIBIBYTE) 1, Unit.Gibibyte⟩,
  ⟨1 * TEBIBYTE, fun bytes => fmtF bytes (1 * GIBIBYTE) 0, Unit.Gibibyte⟩,
  ⟨10 * TEBIBYTE, fun bytes => fmtF bytes (1 * TEBIBYTE) 2, Unit.Tebibyte⟩,
  ⟨100 * TEBIBYTE, fun bytes => fmtF bytes (1 * TEBIBYTE) 1, Unit.Tebibyte⟩,
  ⟨1 * PEBIBYTE, fun bytes => fmtF bytes (1 * TEBIBYTE) 0, Unit.Tebibyte⟩,
  ⟨10 * PEBIBYTE, fun bytes => fmtF bytes (1 * PEBIBYTE) 2, Unit.Pebibyte⟩,
  ⟨100 * PEBIBYTE, fun bytes => fmtF bytes (1 * PEBIBYTE) 1, Unit.Pebibyte⟩,
  ⟨1 * EXBIBYTE, fun bytes => fmtF bytes (1 * PEBIBYTE) 0, Unit.Pebibyte⟩,
  ⟨u64Max, fun bytes => displayF bytes (1 * EXBIBYTE), Unit.Exbibyte⟩]

/-- The rule table the `match self.base` in `SizeFormatter`'s `Display`
implementation picks (`src/fmt.rs` lines 202–213). -/
def rulesOf : Base → List FormatRule
  | Base.Base2 => BASE2_RULES
  | Base.Base10 => BASE10_RULES

/-- The `less_than` key sequence searched by `binary_search_by_key`. -/
def keysOf (base : Base) : List Nat := (rulesOf base).map FormatRule.less_than

/-- Models `slice::binary_search_by_key` through its documented contract: on
strictly increasing keys it returns `Sum.inl i` (Rust's `Ok(i)`) when
`keys[i] = b` — the match is then unique — and `Sum.inr i` (Rust's
`Err(i)`) with `i` the insertion point otherwise.  The reference
implementation here is a linear scan; on strictly sorted keys it agrees
with any binary search satisfying that contract. -/
def binarySearchByKey : List Nat → Nat → Nat ⊕ Nat
  | [], _ => Sum.inr 0
  | k :: ks, b =>
    if b < k then Sum.inr 0
    else if b = k then Sum.inl 0
    else
      match binarySearchByKey ks b with
      | Sum.inl i => Sum.inl (i + 1)
      | Sum.inr i => Sum.inr (i + 1)

/-- The rule lookup of `SizeFormatter`'s `Display` implementation
(`src/fmt.rs` lines 202–213): `Ok(index)` reads `RULES[index + 1]`,
`Err(index)` reads `RULES[index]`.  The potentially out-of-bounds indexing
(a panic in Rust) is modelled by the `Option` of `getElem?`. -/
def selectRule (base : Base) (bytes : Nat) : Option FormatRule :=
  match binarySearchByKey (keysOf base) bytes with
  | Sum.inl index => (rulesOf base)[index + 1]?
  | Sum.inr index => (rulesOf base)[index]?

/-- The rule index the lookup reads (both branches, folded into one `Nat`). -/
def lookupIdx (keys : List Nat) (b : Nat) : Nat :=
  match binarySearchByKey keys b with
  | Sum.inl i => i + 1
  | Sum.inr i => i

/-- Modelled from the spec: the numeric `Size` type lives in the crate root
(`lib.rs`), which is not among the provided sources; the spec (§1, §6)
treats it as exposing a signed 64-bit byte count through `bytes()`. -/
structure Size where
  bytes : Int

/-- Models `i64::checked_abs`: `none` exactly at `i64::MIN`, the absolute
value otherwise (faithful on the i64 range `-2^63 ≤ x < 2^63`). -/
def checkedAbs (x : Int) : Option Int :=
  if x = -(2 ^ 63) then none else some (if x < 0 then -x else x)

/-- The magnitude computed in `SizeFormatter`'s `Display` implementation
(`src/fmt.rs` lines 188–200): non-negative byte counts are used as-is;
negative ones are replaced by `checked_abs`, falling back to
`i64::max_value()` at `i64::MIN`. -/
def magnitudeOf (b : Int) : Nat :=
  if 0 ≤ b then b.toNat
  else
    match checkedAbs b with
    | some a => a.toNat
    | none => i64Max

/-- The sign prefix written by the same code: `"-"` for negative counts. -/
def signOf (b : Int) : String := if 0 ≤ b then "" else "-"

/-- Modelled from the spec: `DEFAULT_BASE` lives in the crate root, not among
the provided sources; spec §6 fixes the default base to `Base2`. -/
def DEFAULT_BASE : Base := Base.Base2

/-- Modelled from the spec: `DEFAULT_STYLE` lives in the crate root, not
among the provided sources; spec §6 fixes the default style to `Default`. -/
def DEFAULT_STYLE : Style := Style.Default

/-- `struct SizeFormatter` from `src/fmt.rs` (lines 149–153); the borrowed
`&'a Size` is carried by value. -/
structure SizeFormatter where
  size : Size
  base : Base
  style : Style

/-- `SizeFormatter::with_base` (`src/fmt.rs` lines 161–166). -/
def SizeFormatter.with_base (f : SizeFormatter) (base : Base) : SizeFormatter :=
  { f with base := base }

/-- `SizeFormatter::with_style` (`src/fmt.rs` lines 171–176). -/
def SizeFormatter.with_style (f : SizeFormatter) (style : Style) : SizeFormatter :=
  { f with style := style }

/-- The `Display` implementation of `SizeFormatter` (`src/fmt.rs` lines
186–220): sign, then the selected rule's numeric renderer, then the unit
text.  A `none` result models the panic of the out-of-bounds `RULES` access
(never reached from i64 byte counts, as proved below). -/
def SizeFormatter.fmt (f : SizeFormatter) : Option String :=
  match selectRule f.base (magnitudeOf f.size.bytes) with
  | some rule =>
    some (signOf f.size.bytes ++ rule.formatter (magnitudeOf f.size.bytes)
      ++ Unit.format rule.unit (magnitudeOf f.size.bytes) f.style)
  | none => none

/-- `SizeFormatter::to_string` (`src/fmt.rs` lines 181–183):
`format!("{}", &self)`, i.e. the `Display` output. -/
def SizeFormatter.to_string (f : SizeFormatter) : Option String := f.fmt

/-- `Size::format` (`src/fmt.rs` lines 232–238). -/
def Size.format (s : Size) : SizeFormatter :=
  { size := s, base := DEFAULT_BASE, style := DEFAULT_STYLE }

/-- `Size::to_string` (`src/fmt.rs` lines 225–227):
`format!("{}", self.format())`. -/
def Size.to_string (s : Size) : Option String := (Size.format s).fmt

/-- The `Display` implementation of `Size` (`src/fmt.rs` lines 136–140):
`write!(fmt, "{}", self.to_string())` — the inherent `Size::to_string`. -/
def Size.fmt (s : Size) : Option String := Size.to_string s

/-- One chained configuration call on a `SizeFormatter`. -/
def applyCall (f : SizeFormatter) : Base ⊕ Style → SizeFormatter
  | Sum.inl b => f.with_base b
  | Sum.inr s => f.with_style s

/-- A whole chain of `with_base`/`with_style` calls, applied left to right. -/
def applyCalls (f : SizeFormatter) (cs : List (Base ⊕ Style)) : SizeFormatter :=
  cs.foldl applyCall f

/-- The last base appearing in a chain of configuration calls, if any. -/
def lastBase? : List (Base ⊕ Style) → Option Base
  | [] => none
  | Sum.inl b :: cs => some ((lastBase? cs).getD b)
  | Sum.inr _ :: cs => lastBase? cs

/-- The last style appearing in a chain of configuration calls, if any. -/
def lastStyle? : List (Base ⊕ Style) → Option Style
  | [] => none
  | Sum.inl _ :: cs => lastStyle? cs
  | Sum.inr s :: cs => some ((lastStyle? cs).getD s)

/-- The unit tier found at index `i` of a rule table (`7`, above every real
tier, past the end). -/
def tierAt (base : Base) (i : Nat) : Nat :=
  match (rulesOf base)[i]? with
  | some r => Unit.tier r.unit
  | none => 7

end Pretty

namespace Pretty

lemma str_empty_append (s : String) : "" ++ s = s := by
  obtain ⟨data⟩ := s
  rfl

lemma str_append_empty (s : String) : s ++ "" = s := by
  obtain ⟨data⟩ := s
  exact congrArg String.mk (List.append_nil data)

lemma str_append_assoc (a b c : String) : a ++ b ++ c = a ++ (b ++ c) := by
  obtain ⟨x⟩ := a
  obtain ⟨y⟩ := b
  obtain ⟨z⟩ := c
  exact congrArg String.mk (List.append_assoc x y z)

lemma lookupIdx_cons (k : Nat) (ks : List Nat) (b : Nat) :
    lookupIdx (k :: ks) b =
      if b < k then 0 else if b = k then 1 else lookupIdx ks b + 1 := by
  simp only [lookupIdx, binarySearchByKey]
  by_cases h1 : b < k
  · simp [h1]
  · by_cases h2 : b = k
    · simp [h1, h2]
    · rcases h : binarySearchByKey ks b with i | i <;> simp [h1, h2, h]

lemma selectRule_eq_lookup (base : Base) (b : Nat) :
    selectRule base b = (rulesOf base)[lookupIdx (keysOf base) b]? := by
  simp only [selectRule, lookupIdx]
  rcases h : binarySearchByKey (keysOf base) b with i | i <;> simp [h]

lemma rulesOf_length (base : Base) : (rulesOf base).length = 17 := by
  cases base <;> rfl

lemma keysOf_length (base : Base) : (keysOf base).length = 17 := by
  cases base <;> rfl

lemma keys_pairwise (base : Base) : (keysOf base).Pairwise (· < ·) := by
  cases base <;> decide

lemma u64Max_mem_keys (base : Base) : u64Max ∈ keysOf base := by
  cases base <;> decide

lemma lookupIdx_eq_countP : ∀ (keys : List Nat), keys.Pairwise (· < ·) → ∀ b : Nat,
    lookupIdx keys b = keys.countP (fun k => decide (k ≤ b)) := by
  intro keys
  induction keys with
  | nil => intro _ b; rfl
  | cons k ks ih =>
    intro hp b
    rcases List.pairwise_cons.mp hp with ⟨hk, hks⟩
    rw [lookupIdx_cons, List.countP_cons]
    by_cases h1 : b < k
    · have h0 : ks.countP (fun k => decide (k ≤ b)) = 0 := by
        rw [List.countP_eq_zero]
        intro a ha
        have := hk a ha
        simp only [decide_eq_true_eq]
        omega
      have hkb : ¬ k ≤ b := by omega
      simp [h1, h0, hkb]
    · by_cases h2 : b = k
      · have h0 : ks.countP (fun k => decide (k ≤ b)) = 0 := by
          rw [List.countP_eq_zero]
          intro a ha
          have := hk a ha
          simp only [decide_eq_true_eq]
          omega
        have hkb : k ≤ b := by omega
        rw [if_neg h1, if_pos h2, h0]
        simp [hkb]
      · have h3 : k < b := by omega
        have hkb : k ≤ b := by omega
        simp [h1, h2, hkb, ih hks b]

lemma countP_lt_of_exists : ∀ (l : List Nat) (b : Nat), (∃ x ∈ l, b < x) →
    l.countP (fun k => decide (k ≤ b)) < l.length := by
  intro l b
  induction l with
  | nil => rintro ⟨x, hx, _⟩; cases hx
  | cons k ks ih =>
    rintro ⟨x, hx, hbx⟩
    rw [List.countP_cons, List.length_cons]
    rcases List.mem_cons.mp hx with rfl | hx2
    · have h1 : ¬ x ≤ b := by omega
      have := List.countP_le_length (p := fun k => decide (k ≤ b)) (l := ks)
      simp [h1]
      omega
    · have hih := ih ⟨x, hx2, hbx⟩
      by_cases hkb : k ≤ b <;> simp [hkb] <;> omega

lemma lookupIdx_spec : ∀ (keys : List Nat), keys.Pairwise (· < ·) → ∀ b : Nat,
    (∀ j, j < lookupIdx keys b → keys.getD j 0 ≤ b) ∧
    (lookupIdx keys b < keys.length → b < keys.getD (lookupIdx keys b) 0) := by
  intro keys
  induction keys with
  | nil =>
    intro _ b
    refine ⟨fun j hj => ?_, fun h => ?_⟩
    · simp [lookupIdx, binarySearchByKey] at hj
    · simp [lookupIdx, binarySearchByKey] at h
  | cons k ks ih =>
    intro hp b
    rcases List.pairwise_cons.mp hp with ⟨hk, hks⟩
    rw [lookupIdx_cons]
    by_cases h1 : b < k
    · simp only [if_pos h1]
      refine ⟨fun j hj => by omega, fun _ => ?_⟩
      simpa using h1
    · by_cases h2 : b = k
      · simp only [if_neg h1, if_pos h2]
        constructor
        · intro j hj
          have hj0 : j = 0 := by omega
          subst hj0
          simp [h2]
        · intro hlen
          rw [List.getD_cons_succ]
          cases ks with
          | nil => simp at hlen
          | cons m ms =>
            rw [List.getD_cons_zero]
            have : k < m := hk m (by simp)
            omega
      · have h3 : k < b := by omega
        simp only [if_neg h1, if_neg h2]
        rcases ih hks b with ⟨ih1, ih2⟩
        constructor
        · intro j hj
          cases j with
          | zero => simpa using Nat.le_of_lt h3
          | succ j' =>
            rw [List.getD_cons_succ]
            exact ih1 j' (by omega)
        · intro hlen
          rw [List.getD_cons_succ]
          exact ih2 (by simpa [List.length_cons] using hlen)

lemma lookupIdx_lt_17 (base : Base) (b : Nat) (h : b < u64Max) :
    lookupIdx (keysOf base) b < 17 := by
  rw [lookupIdx_eq_countP (keysOf base) (keys_pairwise base) b]
  have := countP_lt_of_exists (keysOf base) b ⟨u64Max, u64Max_mem_keys base, h⟩
  rwa [keysOf_length] at this

lemma selectRule_isSome (base : Base) (b : Nat) (h : b < u64Max) :
    ∃ r, selectRule base b = some r := by
  rw [selectRule_eq_lookup]
  have hlt : lookupIdx (keysOf base) b < (rulesOf base).length := by
    rw [rulesOf_length]
    exact lookupIdx_lt_17 base b h
  exact ⟨_, List.getElem?_eq_getElem hlt⟩

lemma magnitudeOf_le_i64Max (b : Int) (h1 : -(2 ^ 63) ≤ b) (h2 : b < 2 ^ 63) :
    magnitudeOf b ≤ i64Max := by
  have e1 : ((2 : Int) ^ 63) = 9223372036854775808 := by norm_num
  have e2 : i64Max = 9223372036854775807 := by norm_num [i64Max]
  rw [e1] at h1 h2
  unfold magnitudeOf checkedAbs
  by_cases h0 : 0 ≤ b
  · rw [if_pos h0]
    omega
  · rw [if_neg h0]
    by_cases hmin : b = -(2 ^ 63)
    · simp only [if_pos hmin]
      omega
    · simp only [if_neg hmin]
      have hb : b < 0 := by omega
      simp only [if_pos hb]
      rw [e1] at hmin
      omega

lemma i64Max_lt_u64Max : i64Max < u64Max := by
  norm_num [i64Max, u64Max]

lemma tier_fin (base : Base) :
    ∀ i j : Fin 17, i.val ≤ j.val → tierAt base i.val ≤ tierAt base j.val := by
  cases base <;> decide

lemma tierAt_le_7 (base : Base) : ∀ i : Fin 17, tierAt base i.val ≤ 7 := by
  cases base <;> decide

lemma tierAt_mono (base : Base) (i j : Nat) (hij : i ≤ j) :
    tierAt base i ≤ tierAt base j := by
  by_cases hj : j < 17
  · exact tier_fin base ⟨i, by omega⟩ ⟨j, hj⟩ hij
  · have hjn : tierAt base j = 7 := by
      unfold tierAt
      rw [List.getElem?_eq_none (by rw [rulesOf_length]; omega)]
  
    rw [hjn]
    by_cases hi : i < 17
    · exact tierAt_le_7 base ⟨i, hi⟩
    · have hin : tierAt base i = 7 := by
        unfold tierAt
        rw [List.getElem?_eq_none (by rw [rulesOf_length]; omega)]
      omega

end Pretty

namespace Pretty

lemma applyCalls_base : ∀ (cs : List (Base ⊕ Style)) (f : SizeFormatter),
    (applyCalls f cs).base = (lastBase? cs).getD f.base := by
  intro cs
  induction cs with
  | nil => intro f; rfl
  | cons c cs ih =>
    intro f
    rcases c with b | s
    · show (applyCalls (f.with_base b) cs).base = _
      rw [ih]
      rfl
    · show (applyCalls (f.with_style s) cs).base = _
      rw [ih]
      rfl

lemma applyCalls_style : ∀ (cs : List (Base ⊕ Style)) (f : SizeFormatter),
    (applyCalls f cs).style = (lastStyle? cs).getD f.style := by
  intro cs
  induction cs with
  | nil => intro f; rfl
  | cons c cs ih =>
    intro f
    rcases c with b | s
    · show (applyCalls (f.with_base b) cs).style = _
      rw [ih]
      rfl
    · show (applyCalls (f.with_style s) cs).style = _
      rw [ih]
      rfl

lemma applyCalls_size : ∀ (cs : List (Base ⊕ Style)) (f : SizeFormatter),
    (applyCalls f cs).size = f.size := by
  intro cs
  induction cs with
  | nil => intro f; rfl
  | cons c cs ih =>
    intro f
    rcases c with b | s
    · exact ih (f.with_base b)
    · exact ih (f.with_style s)

/-- C1: for every byte count below the catch-all threshold and either base,
the rule lookup stays in bounds and selects exactly the first rule whose
`less_than` threshold strictly exceeds the byte count (so equality with a
threshold promotes to the next rule); and at each of the 16 real tier
thresholds `T` of either table, `T - 1` selects the rule at the threshold's
own index while `T` selects the next rule. -/
theorem spec_c1 :
    (∀ (base : Base) (b : Nat), b < u64Max →
      lookupIdx (keysOf base) b < 17 ∧
      selectRule base b = (rulesOf base)[lookupIdx (keysOf base) b]? ∧
      b < (keysOf base).getD (lookupIdx (keysOf base) b) 0 ∧
      (∀ j, j < lookupIdx (keysOf base) b → (keysOf base).getD j 0 ≤ b)) ∧
    (∀ (base : Base) (i : Fin 16),
      lookupIdx (keysOf base) ((keysOf base).getD i.val 0 - 1) = i.val ∧
      lookupIdx (keysOf base) ((keysOf base).getD i.val 0) = i.val + 1) := by
  constructor
  · intro base b hb
    have hlt := lookupIdx_lt_17 base b hb
    rcases lookupIdx_spec (keysOf base) (keys_pairwise base) b with ⟨hbelow, habove⟩
    exact ⟨hlt, selectRule_eq_lookup base b,
      habove (by rw [keysOf_length]; omega), hbelow⟩
  · intro base
    cases base <;> decide

/-- C1 witness: at `b = 1024` (the first Base2 threshold) the lookup
promotes to rule index 1. -/
theorem spec_c1_witness :
    (1024 : Nat) < u64Max ∧
    (lookupIdx (keysOf Base.Base2) 1024 < 17 ∧
      selectRule Base.Base2 1024
          = (rulesOf Base.Base2)[lookupIdx (keysOf Base.Base2) 1024]? ∧
      1024 < (keysOf Base.Base2).getD (lookupIdx (keysOf Base.Base2) 1024) 0 ∧
      (∀ j, j < lookupIdx (keysOf Base.Base2) 1024 →
        (keysOf Base.Base2).getD j 0 ≤ 1024)) :=
  ⟨by decide, spec_c1.1 Base.Base2 1024 (by decide)⟩

/-- C2: the code bug behind the claim.  The last rule of each table formats
with `"{:0}"` — no precision, hence the plain `f64` — instead of the
0-decimal `"{:.0}"` every other whole-number rule uses and the spec
describes: at 1.5 exbibytes (an input where the double arithmetic and its
shortest decimal are exact) the output is the fractional "1.5 EiB", not a
whole number.  The unit-selection half of the claim does hold: at the
largest representable magnitude both tables still pick the exa/exbi unit,
with no promotion beyond it. -/
theorem spec_c2_bug :
    (selectRule Base.Base2 (2 ^ 63 - 1)).map FormatRule.unit
        = some Unit.Exbibyte ∧
    (selectRule Base.Base10 (2 ^ 63 - 1)).map FormatRule.unit
        = some Unit.Exabyte ∧
    SizeFormatter.fmt ⟨⟨1729382256910270464⟩, Base.Base2, Style.Abbreviated⟩
        = some "1.5 EiB" := by
  refine ⟨by decide, by decide, by decide⟩

/-- C3: rendering is total over representable signed 64-bit byte counts:
for every base and style the lookup index is in bounds (the `index + 1`
access after an exact match on the final `u64::MAX` threshold is
unreachable, the magnitude never exceeding `i64::MAX`) and formatting
produces a string. -/
theorem spec_c3 (s : Size) (base : Base) (style : Style)
    (h1 : -(2 ^ 63) ≤ s.bytes) (h2 : s.bytes < 2 ^ 63) :
    lookupIdx (keysOf base) (magnitudeOf s.bytes) < 17 ∧
    ∃ t, SizeFormatter.fmt ⟨s, base, style⟩ = some t := by
  have hm := magnitudeOf_le_i64Max s.bytes h1 h2
  have hmu : magnitudeOf s.bytes < u64Max := lt_of_le_of_lt hm i64Max_lt_u64Max
  refine ⟨lookupIdx_lt_17 base _ hmu, ?_⟩
  rcases selectRule_isSome base (magnitudeOf s.bytes) hmu with ⟨r, hr⟩
  exact ⟨_, by simp only [SizeFormatter.fmt]; rw [hr]⟩

/-- C3 witness: formatting 123456 bytes with Base10 and the default style
succeeds. -/
theorem spec_c3_witness :
    -(2 ^ 63) ≤ (Size.mk 123456).bytes ∧ (Size.mk 123456).bytes < 2 ^ 63 ∧
    (lookupIdx (keysOf Base.Base10) (magnitudeOf (Size.mk 123456).bytes) < 17 ∧
      ∃ t, SizeFormatter.fmt ⟨Size.mk 123456, Base.Base10, Style.Default⟩
            = some t) :=
  ⟨by decide, by decide,
    spec_c3 (Size.mk 123456) Base.Base10 Style.Default (by decide) (by decide)⟩

/-- C4: a negative byte count renders as `"-"` followed by the rendering of
its absolute value, and the single input `i64::MIN` renders the magnitude
`i64::MAX` after the `"-"` (clamping instead of failing). -/
theorem spec_c4 (n : Int) (base : Base) (style : Style)
    (h1 : -(2 ^ 63) ≤ n) (h2 : n < 0) :
    SizeFormatter.fmt ⟨⟨n⟩, base, style⟩ =
      Option.map (fun t => "-" ++ t)
        (SizeFormatter.fmt ⟨⟨if n = -(2 ^ 63) then 2 ^ 63 - 1 else -n⟩, base, style⟩) := by
  have hmag : magnitudeOf ((if n = -(2 ^ 63) then 2 ^ 63 - 1 else -n : Int))
      = magnitudeOf n := by
    by_cases hmin : n = -(2 ^ 63)
    · subst hmin
      decide
    · rw [if_neg hmin]
      unfold magnitudeOf checkedAbs
      rw [if_pos (show (0:Int) ≤ -n by omega), if_neg (show ¬ (0:Int) ≤ n by omega),
        if_neg hmin, if_pos h2]
  have hsn : signOf n = "-" := by
    unfold signOf
    rw [if_neg (by omega)]
  have hsm : signOf ((if n = -(2 ^ 63) then 2 ^ 63 - 1 else -n : Int)) = "" := by
    have hge : (0:Int) ≤ (if n = -(2 ^ 63) then 2 ^ 63 - 1 else -n) := by
      split
      · norm_num
      · omega
    unfold signOf
    rw [if_pos hge]
  simp only [SizeFormatter.fmt, hmag, hsn, hsm]
  rcases h : selectRule base (magnitudeOf n) with _ | r
  · simp
  · show some ("-" ++ r.formatter (magnitudeOf n) ++ r.unit.format (magnitudeOf n) style)
        = Option.map (fun t => "-" ++ t)
            (some ("" ++ r.formatter (magnitudeOf n) ++ r.unit.format (magnitudeOf n) style))
    rw [str_empty_append]
    rfl

/-- C4 witness: `-5` bytes renders as `"-"` before the rendering of `5`. -/
theorem spec_c4_witness :
    -(2 ^ 63) ≤ (-5 : Int) ∧ (-5 : Int) < 0 ∧
    SizeFormatter.fmt ⟨⟨-5⟩, Base.Base2, Style.Default⟩ =
      Option.map (fun t => "-" ++ t)
        (SizeFormatter.fmt
          ⟨⟨if (-5 : Int) = -(2 ^ 63) then 2 ^ 63 - 1 else -(-5 : Int)⟩,
            Base.Base2, Style.Default⟩) :=
  ⟨by decide, by decide, spec_c4 (-5) Base.Base2 Style.Default (by decide) (by decide)⟩

/-- C5: the Full and FullLowercase styles append "s" to the full unit name
exactly when the raw byte count differs from 1, the abbreviated styles never
do, and pluralization is decided from the raw integer byte count, not the
rounded displayed number — 1024 bytes display as "1.00" yet pluralize. -/
theorem spec_c5 :
    (∀ (u : Unit) (bytes : Nat),
      Unit.format u bytes Style.Full
          = " " ++ (Unit.text u).2.1 ++ (if bytes = 1 then "" else "s") ∧
      Unit.format u bytes Style.FullLowercase
          = " " ++ (Unit.text u).1 ++ (if bytes = 1 then "" else "s") ∧
      Unit.format u bytes Style.Abbreviated = " " ++ (Unit.text u).2.2.2 ∧
      Unit.format u bytes Style.AbbreviatedLowercase
          = " " ++ (Unit.text u).2.2.1) ∧
    SizeFormatter.fmt ⟨⟨1024⟩, Base.Base2, Style.Full⟩ = some "1.00 Kibibytes" := by
  constructor
  · intro u bytes
    rcases bytes with _ | _ | m
    · exact ⟨rfl, rfl, rfl, rfl⟩
    · refine ⟨?_, ?_, rfl, rfl⟩ <;> simp [Unit.format, str_append_empty]
    · exact ⟨rfl, rfl, rfl, rfl⟩
  · decide

/-- C6: the Default style yields exactly the FullLowercase unit text when
the unit is Byte and exactly the Abbreviated unit text for every other
unit. -/
theorem spec_c6 (u : Unit) (bytes : Nat) :
    Unit.format u bytes Style.Default =
      Unit.format u bytes
        (match u with
         | Unit.Byte => Style.FullLowercase
         | _ => Style.Abbreviated) := by
  cases u <;> rcases bytes with _ | _ | m <;> rfl

/-- C7: the five concrete renderings claimed by the spec hold. -/
theorem spec_c7 :
    SizeFormatter.fmt ⟨⟨0⟩, Base.Base10, Style.FullLowercase⟩ = some "0 bytes" ∧
    SizeFormatter.fmt ⟨⟨1⟩, Base.Base10, Style.FullLowercase⟩ = some "1 byte" ∧
    SizeFormatter.fmt ⟨⟨1024⟩, Base.Base2, Style.Abbreviated⟩ = some "1.00 KiB" ∧
    SizeFormatter.fmt ⟨⟨1048576⟩, Base.Base2, Style.Abbreviated⟩ = some "1.00 MiB" ∧
    SizeFormatter.fmt ⟨⟨1536⟩, Base.Base2, Style.Full⟩ = some "1.50 Kibibytes" := by
  refine ⟨by decide, by decide, by decide, by decide, by decide⟩

/-- C8: the selected unit's magnitude tier is monotone in the byte count,
for either base. -/
theorem spec_c8 (base : Base) (b1 b2 : Nat) (h12 : b1 ≤ b2) (h2 : b2 < u64Max) :
    ∃ r1 r2, selectRule base b1 = some r1 ∧ selectRule base b2 = some r2 ∧
      Unit.tier r1.unit ≤ Unit.tier r2.unit := by
  have h1u : b1 < u64Max := by omega
  rcases selectRule_isSome base b1 h1u with ⟨r1, hr1⟩
  rcases selectRule_isSome base b2 h2 with ⟨r2, hr2⟩
  refine ⟨r1, r2, hr1, hr2, ?_⟩
  have e1 : tierAt base (lookupIdx (keysOf base) b1) = Unit.tier r1.unit := by
    unfold tierAt
    rw [← selectRule_eq_lookup, hr1]
  have e2 : tierAt base (lookupIdx (keysOf base) b2) = Unit.tier r2.unit := by
    unfold tierAt
    rw [← selectRule_eq_lookup, hr2]
  rw [← e1, ← e2]
  apply tierAt_mono
  rw [lookupIdx_eq_countP _ (keys_pairwise base) b1,
    lookupIdx_eq_countP _ (keys_pairwise base) b2]
  apply List.countP_mono_left
  intro x _ hx
  simp only [decide_eq_true_eq] at hx ⊢
  omega

/-- C8 witness: between 500 bytes and 4096 bytes the Base2 tier does not
decrease. -/
theorem spec_c8_witness :
    (500 : Nat) ≤ 4096 ∧ (4096 : Nat) < u64Max ∧
    ∃ r1 r2, selectRule Base.Base2 500 = some r1 ∧
      selectRule Base.Base2 4096 = some r2 ∧
      Unit.tier r1.unit ≤ Unit.tier r2.unit :=
  ⟨by decide, by decide, spec_c8 Base.Base2 500 4096 (by decide) (by decide)⟩

/-- C9: chained configuration keeps the last-applied base and style and the
referenced size, and each setter changes only its own field. -/
theorem spec_c9 (f : SizeFormatter) (cs : List (Base ⊕ Style)) :
    (applyCalls f cs).base = (lastBase? cs).getD f.base ∧
    (applyCalls f cs).style = (lastStyle? cs).getD f.style ∧
    (applyCalls f cs).size = f.size ∧
    ∀ (b : Base) (s : Style),
      (f.with_base b).base = b ∧ (f.with_base b).style = f.style ∧
      (f.with_base b).size = f.size ∧ (f.with_style s).style = s ∧
      (f.with_style s).base = f.base ∧ (f.with_style s).size = f.size :=
  ⟨applyCalls_base cs f, applyCalls_style cs f, applyCalls_size cs f,
    fun b s => ⟨rfl, rfl, rfl, rfl, rfl, rfl⟩⟩

/-- C10: the three rendering entry points agree: `Size`'s `Display`,
`Size::to_string` and the `SizeFormatter` returned by `Size::format()` with
its default configuration all produce the same string. -/
theorem spec_c10 (s : Size) :
    Size.fmt s = SizeFormatter.to_string (Size.format s) ∧
    Size.to_string s = SizeFormatter.to_string (Size.format s) ∧
    (Size.format s).base = DEFAULT_BASE ∧
    (Size.format s).style = DEFAULT_STYLE ∧
    (Size.format s).size = s :=
  ⟨rfl, rfl, rfl, rfl, rfl⟩

end Pretty
